import Mathlib

/-!
# Verification of the xhub indexing-and-retrieval engine

Shallow embedding of the bookmark store (`internal/db`), the hybrid
search path (`internal/db` search file) and the enrichment pipeline
(`internal/indexer/indexer.go`) of the xhub repository, together with
proofs settling the specification claims.

Modelling conventions:
* SQLite rows are Lean structures; nullable columns are `Option` values.
  Go `string` values are bound by the sqlite driver as SQL text (never
  NULL), so they enter the model as `some s`; a Go zero `time.Time`
  bound through a nil `interface{}` enters as `none`.
* Tables are lists of rows in rowid order; `UPDATE` maps over the
  matching rows in place, `INSERT` appends, `DELETE` filters.
* `time.Now()` is passed in explicitly as a `Nat` tick (`0` models the
  Go zero time, which is what `time.Time.IsZero` tests).
* float64 scores are modelled over `ℚ`: the reciprocal-rank-fusion
  weights are exact rationals and no claim depends on rounding.
* Calls that leave the repository (the FTS5 engine, the scraper, the
  summarizer and the embedder) are modelled by passing their outcome in
  as an `Except`/`Bool` argument.
-/

namespace XHub

/-- The Go `db.Bookmark` struct (internal/db/models.go). Timestamps are
`Nat` ticks with `0` as the zero `time.Time`. -/
structure Bookmark where
  id : String
  source : String
  url : String
  title : String
  summary : String
  keywords : String
  notes : String
  rawContent : String
  createdAt : Nat
  updatedAt : Nat
  scrapedAt : Nat
  scrapeStatus : String
  hidden : Bool
deriving Repr, DecidableEq

/-- One row of the `bookmarks` table. Text columns and `scraped_at` are
nullable in the schema, hence `Option`. -/
structure Row where
  id : String
  source : String
  url : String
  title : Option String
  summary : Option String
  keywords : Option String
  notes : Option String
  rawContent : Option String
  createdAt : Nat
  updatedAt : Nat
  scrapedAt : Option Nat
  scrapeStatus : Option String
  hidden : Bool
deriving Repr, DecidableEq

/-- The persistent state: `bookmarks` table (rowid order), the
`bookmarks_vec` embedding table and the `metadata` key/value table. -/
structure StoreState where
  bookmarks : List Row
  embeddings : List (String × List ℚ)
  metadata : List (String × String)
deriving Repr, DecidableEq

/-- The empty database produced by `migrate`. -/
def emptyStore : StoreState := ⟨[], [], []⟩

/-! ## SHA-256 and `generateID`

`generateID(url)` (store file, lines 170-173) hex-encodes the first 8
bytes of `sha256(url)`. SHA-256 is embedded in full so that the id
really is the content-derived digest the code computes; 32-bit words
are `Nat` values reduced `% 2 ^ 32`. -/

/-- Right-rotation of a 32-bit word. -/
def rotr32 (x n : Nat) : Nat := (x >>> n + (x % 2 ^ n) * 2 ^ (32 - n)) % 2 ^ 32

def sha256SmallSigma0 (x : Nat) : Nat := (rotr32 x 7) ^^^ (rotr32 x 18) ^^^ (x >>> 3)

def sha256SmallSigma1 (x : Nat) : Nat := (rotr32 x 17) ^^^ (rotr32 x 19) ^^^ (x >>> 10)

def sha256BigSigma0 (x : Nat) : Nat := (rotr32 x 2) ^^^ (rotr32 x 13) ^^^ (rotr32 x 22)

def sha256BigSigma1 (x : Nat) : Nat := (rotr32 x 6) ^^^ (rotr32 x 11) ^^^ (rotr32 x 25)

def sha256Ch (x y z : Nat) : Nat := (x &&& y) ^^^ ((0xffffffff ^^^ x) &&& z)

def sha256Maj (x y z : Nat) : Nat := (x &&& y) ^^^ (x &&& z) ^^^ (y &&& z)

/-- Trial-division primality test, adequate for the small primes the
SHA-256 constants derive from. -/
def isPrimeNat (n : Nat) : Bool :=
  decide (2 ≤ n) && (List.range n).all (fun d => d < 2 || n % d ≠ 0)

/-- The first `count` primes (the 64th prime is 311 < 400). -/
def firstPrimes (count : Nat) : List Nat :=
  ((List.range 400).filter isPrimeNat).take count

/-- Integer cube root by bit-wise descent (inputs below `2 ^ 108`). -/
def icbrt (n : Nat) : Nat :=
  (List.range 36).foldl
    (fun r i =>
      let c := r + 2 ^ (35 - i)
      if c ^ 3 ≤ n then c else r) 0

/-- Round constants: the first 32 bits of the fractional parts of the
cube roots of the first 64 primes (FIPS 180-4). -/
def sha256K : List Nat := (firstPrimes 64).map (fun p => icbrt (p * 2 ^ 96) % 2 ^ 32)

/-- Initial hash value: the first 32 bits of the fractional parts of
the square roots of the first 8 primes (FIPS 180-4). -/
def sha256H0 : List Nat := (firstPrimes 8).map (fun p => Nat.sqrt (p * 2 ^ 64) % 2 ^ 32)

/-- `n` bytes of `v`, big-endian. -/
def bytesBE (n v : Nat) : List Nat :=
  (List.range n).map (fun i => v >>> (8 * (n - 1 - i)) % 256)

/-- Merkle-Damgard padding: append `0x80`, zeros to 56 mod 64, then the
bit length as 8 big-endian bytes. -/
def sha256Pad (msg : List Nat) : List Nat :=
  let L := msg.length
  let z := (120 - (L + 1) % 64) % 64
  msg ++ [0x80] ++ List.replicate z 0 ++ bytesBE 8 (L * 8)

/-- Group bytes four at a time into 32-bit big-endian words. -/
def bytesToWords : List Nat → List Nat
  | a :: b :: c :: d :: rest => (((a * 256 + b) * 256 + c) * 256 + d) :: bytesToWords rest
  | _ => []

/-- Extend the 16-word block to the 64-word message schedule; `n` more
words remain to be appended. -/
def sha256Extend : Nat → List Nat → List Nat
  | 0, w => w
  | n + 1, w =>
      let i := w.length
      let s0 := sha256SmallSigma0 (w.getD (i - 15) 0)
      let s1 := sha256SmallSigma1 (w.getD (i - 2) 0)
      sha256Extend n (w ++ [(w.getD (i - 16) 0 + s0 + w.getD (i - 7) 0 + s1) % 2 ^ 32])

/-- One round of the compression function on state `[a,b,c,d,e,f,g,h]`. -/
def sha256Round (st : List Nat) (kw : Nat × Nat) : List Nat :=
  match st with
  | [a, b, c, d, e, f, g, h] =>
      let t1 := (h + sha256BigSigma1 e + sha256Ch e f g + kw.1 + kw.2) % 2 ^ 32
      let t2 := (sha256BigSigma0 a + sha256Maj a b c) % 2 ^ 32
      [(t1 + t2) % 2 ^ 32, a, b, c, (d + t1) % 2 ^ 32, e, f, g]
  | other => other

/-- Process one 64-byte block. -/
def sha256Block (h : List Nat) (block : List Nat) : List Nat :=
  let w := sha256Extend 48 (bytesToWords block)
  let st := (sha256K.zip w).foldl sha256Round h
  (h.zip st).map (fun p => (p.1 + p.2) % 2 ^ 32)

/-- Split into 64-byte chunks. -/
def chunks64 (l : List Nat) : List (List Nat) :=
  if h : l = [] then []
  else l.take 64 :: chunks64 (l.drop 64)
termination_by l.length
decreasing_by
  simp only [List.length_drop]
  exact Nat.sub_lt (List.length_pos.mpr h) (by decide)

/-- SHA-256 digest (32 bytes) of a byte sequence. -/
def sha256Bytes (msg : List Nat) : List Nat :=
  let hs := (chunks64 (sha256Pad msg)).foldl sha256Block sha256H0
  hs.foldr (fun w acc => bytesBE 4 w ++ acc) []

def hexDigit (n : Nat) : Char := if n < 10 then Char.ofNat (48 + n) else Char.ofNat (87 + n)

/-- Lowercase hex encoding, as Go `hex.EncodeToString`. -/
def hexEncode (bs : List Nat) : String :=
  String.mk (bs.foldr (fun b acc => hexDigit (b / 16) :: hexDigit (b % 16) :: acc) [])

/-- UTF-8 encoding of one code point, as Go `[]byte(string)`. -/
def utf8Bytes (c : Nat) : List Nat :=
  if c < 0x80 then [c]
  else if c < 0x800 then [0xc0 + c / 0x40, 0x80 + c % 0x40]
  else if c < 0x10000 then [0xe0 + c / 0x1000, 0x80 + c / 0x40 % 0x40, 0x80 + c % 0x40]
  else [0xf0 + c / 0x40000, 0x80 + c / 0x1000 % 0x40, 0x80 + c / 0x40 % 0x40, 0x80 + c % 0x40]

def strBytes (s : String) : List Nat :=
  s.data.foldr (fun c acc => utf8Bytes c.toNat ++ acc) []

/-- `generateID` (store file, lines 170-173): hex of the first 8 bytes
of the SHA-256 of the URL. -/
def generateID (url : String) : String :=
  hexEncode ((sha256Bytes (strBytes url)).take 8)

/-! ## Record Store operations (store file) -/

/-- SQL `COALESCE` on two operands: first non-NULL value. -/
def coalesce (x y : Option α) : Option α :=
  match x with
  | some v => some v
  | none => y

/-- The row an `INSERT` writes for bookmark `b` (all Go strings bind as
SQL text, `scraped_at` binds NULL when the Go time is zero). -/
def rowOfInsert (b : Bookmark) : Row :=
  { id := b.id, source := b.source, url := b.url,
    title := some b.title, summary := some b.summary, keywords := some b.keywords,
    notes := some b.notes, rawContent := some b.rawContent,
    createdAt := b.createdAt, updatedAt := b.updatedAt,
    scrapedAt := if b.scrapedAt = 0 then none else some b.scrapedAt,
    scrapeStatus := some b.scrapeStatus, hidden := b.hidden }

/-- The `ON CONFLICT(url) DO UPDATE` clause of `UpsertReturningNew`:
each listed column is `COALESCE(excluded.col, bookmarks.col)`,
`updated_at` is taken from the excluded row unconditionally; `id`,
`source`, `url`, `created_at` and `hidden` are not updated. -/
def rowOnConflictUpdate (b : Bookmark) (r : Row) : Row :=
  { r with
    title := coalesce (some b.title) r.title,
    summary := coalesce (some b.summary) r.summary,
    keywords := coalesce (some b.keywords) r.keywords,
    notes := coalesce (some b.notes) r.notes,
    rawContent := coalesce (some b.rawContent) r.rawContent,
    updatedAt := b.updatedAt,
    scrapedAt := coalesce (if b.scrapedAt = 0 then none else some b.scrapedAt) r.scrapedAt,
    scrapeStatus := coalesce (some b.scrapeStatus) r.scrapeStatus }

/-- `Store.UpsertReturningNew` (store file, lines 181-220). Returns
`(isNew, mutated bookmark, new state)`; the only error path is the
`INSERT` hitting the `id` primary key with a fresh `url`. -/
def upsertReturningNew (now : Nat) (st : StoreState) (b : Bookmark) :
    Except String (Bool × Bookmark × StoreState) :=
  let b1 := if b.id = "" then { b with id := generateID b.url } else b
  let b2 := { b1 with
    updatedAt := now,
    createdAt := if b1.createdAt = 0 then now else b1.createdAt }
  let isNew := st.bookmarks.all (fun r => r.url ≠ b2.url)
  if st.bookmarks.any (fun r => r.url = b2.url) then
    .ok (isNew, b2,
      { st with bookmarks :=
          st.bookmarks.map (fun r => if r.url = b2.url then rowOnConflictUpdate b2 r else r) })
  else if st.bookmarks.any (fun r => r.id = b2.id) then
    .error "UNIQUE constraint failed: bookmarks.id"
  else
    .ok (isNew, b2, { st with bookmarks := st.bookmarks ++ [rowOfInsert b2] })

/-- Scan a full row back into the Go struct (rows written by this model
always carry `some` in the text columns). -/
def rowToBookmark (r : Row) : Bookmark :=
  { id := r.id, source := r.source, url := r.url,
    title := r.title.getD "", summary := r.summary.getD "", keywords := r.keywords.getD "",
    notes := r.notes.getD "", rawContent := r.rawContent.getD "",
    createdAt := r.createdAt, updatedAt := r.updatedAt,
    scrapedAt := r.scrapedAt.getD 0, scrapeStatus := r.scrapeStatus.getD "",
    hidden := r.hidden }

/-- `Store.Get`: point lookup by id. -/
def getBookmark (st : StoreState) (id : String) : Option Bookmark :=
  (st.bookmarks.find? (fun r => r.id == id)).map rowToBookmark

/-- `Store.GetByURL`: point lookup by url. -/
def getByURL (st : StoreState) (url : String) : Option Bookmark :=
  (st.bookmarks.find? (fun r => r.url == url)).map rowToBookmark

/-- `Store.Delete` (store file, lines 258-264): deletes the embedding
row, then the bookmark row; a `DELETE` that matches nothing is not an
error. -/
def deleteOp (st : StoreState) (id : String) : StoreState :=
  { st with
    embeddings := st.embeddings.filter (fun e => e.1 ≠ id),
    bookmarks := st.bookmarks.filter (fun r => r.id ≠ id) }

/-- Sort key of `Store.List`: `created_at` for raindrop/github/x,
`updated_at` otherwise. -/
def listSortKey (r : Row) : Nat :=
  if r.source = "raindrop" ∨ r.source = "github" ∨ r.source = "x" then r.createdAt
  else r.updatedAt

def insertByKeyDesc (a : Row) : List Row → List Row
  | [] => [a]
  | b :: l => if listSortKey b < listSortKey a then a :: b :: l else b :: insertByKeyDesc a l

/-- One ordering admitted by `ORDER BY … DESC` (SQLite leaves the order
of equal keys open; this model keeps rowid order there). -/
def sortByKeyDesc : List Row → List Row
  | [] => []
  | a :: l => insertByKeyDesc a (sortByKeyDesc l)

/-- `Store.List` scans a column subset: `raw_content` and `scraped_at`
stay at their Go zero values. -/
def listViewBookmark (r : Row) : Bookmark :=
  { rowToBookmark r with rawContent := "", scrapedAt := 0 }

/-- `Store.List` (store file, lines 266-300): non-hidden rows, source
filter, `ORDER BY` the per-source timestamp descending, `LIMIT`. -/
def listOp (st : StoreState) (srcs : List String) (limit : Nat) : List Bookmark :=
  let rows := st.bookmarks.filter (fun r => !r.hidden && (srcs.isEmpty || srcs.contains r.source))
  ((sortByKeyDesc rows).take limit).map listViewBookmark

/-- `Store.GetPending` (store file, lines 302-324): rows whose status is
`pending` or `failed`, up to `limit`. -/
def getPending (st : StoreState) (limit : Nat) : List Bookmark :=
  ((st.bookmarks.filter
      (fun r => r.scrapeStatus == some "pending" || r.scrapeStatus == some "failed")).take
    limit).map rowToBookmark

/-- `Store.UpdateEmbedding`: `INSERT OR REPLACE` into `bookmarks_vec`. -/
def updateEmbedding (st : StoreState) (id : String) (v : List ℚ) : StoreState :=
  { st with embeddings := st.embeddings.filter (fun e => e.1 ≠ id) ++ [(id, v)] }

/-- `Store.GetMetadata`: missing key yields the empty string. -/
def getMetadata (st : StoreState) (key : String) : String :=
  ((st.metadata.find? (fun p => p.1 == key)).map Prod.snd).getD ""

/-- `Store.SetMetadata`: `INSERT OR REPLACE` into `metadata`. -/
def setMetadata (st : StoreState) (key value : String) : StoreState :=
  { st with metadata := st.metadata.filter (fun p => p.1 ≠ key) ++ [(key, value)] }

/-- `Store.Update` (store file, lines 371-383): stamps `updated_at` on
the Go value, then rewrites every listed column of the row with the
matching id. Returns the mutated bookmark and the new state. -/
def updateOp (now : Nat) (st : StoreState) (b : Bookmark) : Bookmark × StoreState :=
  let b1 := { b with updatedAt := now }
  (b1,
   { st with bookmarks := st.bookmarks.map (fun r =>
      if r.id = b1.id then
        { r with
          title := some b1.title, summary := some b1.summary, keywords := some b1.keywords,
          notes := some b1.notes, rawContent := some b1.rawContent, updatedAt := b1.updatedAt,
          scrapedAt := if b1.scrapedAt = 0 then none else some b1.scrapedAt,
          scrapeStatus := some b1.scrapeStatus, hidden := b1.hidden }
      else r) })

/-- The column subset `(id, source, url, title)` scanned by
`GetOrphanedBySource` and `getBookmarksBySource`. -/
structure OrphanRow where
  id : String
  source : String
  url : String
  title : Option String
deriving Repr, DecidableEq

def orphanView (r : Row) : OrphanRow := ⟨r.id, r.source, r.url, r.title⟩

/-- `getBookmarksBySource` (store file, lines 446-463). -/
def getBookmarksBySource (st : StoreState) (source : String) : List OrphanRow :=
  (st.bookmarks.filter (fun r => r.source == source)).map orphanView

/-- `Store.GetOrphanedBySource` (store file, lines 410-443): with no
current URLs every bookmark of the source is orphaned, otherwise
`source = ? AND url NOT IN (…)`. -/
def getOrphanedBySource (st : StoreState) (source : String) (currentURLs : List String) :
    List OrphanRow :=
  if currentURLs = [] then getBookmarksBySource st source
  else
    (st.bookmarks.filter
        (fun r => r.source == source && !(currentURLs.contains r.url))).map orphanView

/-- `Store.MarkForReprocess` reset applied to one row. -/
def reprocessReset (r : Row) : Row :=
  { r with scrapeStatus := some "pending",
           rawContent := some "", summary := some "", keywords := some "" }

/-- `Store.MarkForReprocess` (store file, lines 467-485): no-op on an
empty id list, otherwise one `UPDATE … WHERE id IN (…)`. -/
def markForReprocess (st : StoreState) (ids : List String) : StoreState :=
  if ids = [] then st
  else { st with bookmarks :=
    st.bookmarks.map (fun r => if ids.contains r.id then reprocessReset r else r) }

/-! ## Hybrid search (search file)

`hybridRank` folds both input lists into a Go `map[string]float64` and
then sorts the entries by descending fused score with `sort.Slice`.
Two aspects of a real execution are left open by Go: the order in which
`range` enumerates the map, and the permutation an unstable sort picks
among entries with equal scores.  The model therefore exposes the
enumeration order: `rrfScores` is the map content listed in first-insertion
order, and `hybridRankEnum` runs the sort on any enumeration of it.  A
real run corresponds to `hybridRankEnum iter` for some permutation
`iter` of `rrfScores` (the sort used here is insertion sort, which on a
given enumeration realises one of the orders `sort.Slice` may return;
for the orders any comparison sort must agree on — all comparisons
strict — the choice is irrelevant). -/

/-- The Go `scoredResult` struct. Scores are exact rationals in place
of float64. -/
structure ScoredResult where
  id : String
  score : ℚ
  rank : Nat
deriving Repr, DecidableEq

/-- The RRF increment `1 / (k + rank)` with `k = 60`. -/
def rrfWeight (rank : Nat) : ℚ := 1 / (60 + (rank : ℚ))

/-- `scores[r.ID] += inc` on an association list kept in first-insertion
order. -/
def rrfInsert : List (String × ℚ) → String → ℚ → List (String × ℚ)
  | [], id, inc => [(id, inc)]
  | (k, v) :: rest, id, inc =>
      if k = id then (k, v + inc) :: rest else (k, v) :: rrfInsert rest id inc

/-- Fold one result list into the score map. -/
def rrfAccum (m : List (String × ℚ)) (rs : List ScoredResult) : List (String × ℚ) :=
  rs.foldl (fun acc r => rrfInsert acc r.id (rrfWeight r.rank)) m

/-- Content of the `scores` map built by `hybridRank` (search file,
lines 179-187), listed in first-insertion order. -/
def rrfScores (fts vec : List ScoredResult) : List (String × ℚ) :=
  rrfAccum (rrfAccum [] fts) vec

/-- The fused score of an id as the spec words it: the sum of
`1/(60+rank)` over the entries of either list carrying that id. -/
def rrfScore (fts vec : List ScoredResult) (id : String) : ℚ :=
  ((fts.filter (fun r => r.id == id)).map (fun r => rrfWeight r.rank)).sum
  + ((vec.filter (fun r => r.id == id)).map (fun r => rrfWeight r.rank)).sum

/-- Insert into a list sorted by descending score; an entry with a
score equal to the head stays in front of it, so the sort below keeps
the relative order of tied scores. -/
def insertScoredDesc (a : ScoredResult) : List ScoredResult → List ScoredResult
  | [] => [a]
  | b :: l => if b.score ≤ a.score then a :: b :: l else b :: insertScoredDesc a l

/-- Sort by descending fused score, keeping tied entries in enumeration
order — exactly what `sort.Slice`'s insertion-sort path does to a small
slice with the `results[i].Score > results[j].Score` comparator. -/
def sortScoredDesc : List ScoredResult → List ScoredResult
  | [] => []
  | a :: l => insertScoredDesc a (sortScoredDesc l)

/-- The tail of `hybridRank` run on one enumeration `enum` of the score
map: build the result slice (`Rank` keeps its zero value) and sort it. -/
def hybridRankEnum (enum : List (String × ℚ)) : List ScoredResult :=
  sortScoredDesc (enum.map (fun p => ⟨p.1, p.2, 0⟩))

/-- `hybridRank` (search file, lines 176-200) on the first-insertion
enumeration of the score map. -/
def hybridRank (fts vec : List ScoredResult) : List ScoredResult :=
  hybridRankEnum (rrfScores fts vec)

/-- Sorted by non-increasing score: what `sort.Slice` with the strict
`>` comparator guarantees of its output. -/
def scoresSortedDesc (l : List ScoredResult) : Prop :=
  l.Pairwise (fun a b => b.score ≤ a.score)

/-- The ids of both input lists in order of first appearance. -/
def firstAppearIds (fts vec : List ScoredResult) : List String :=
  (fts ++ vec).foldl (fun ks r => if r.id ∈ ks then ks else ks ++ [r.id]) []

/-- Association-list read of the score map (0 for an absent key — the
increments only ever target present keys). -/
def lookupScore : List (String × ℚ) → String → ℚ
  | [], _ => 0
  | (k, v) :: rest, id => if k = id then v else lookupScore rest id

/-- Keys of the score map in insertion order. -/
def keysOf (m : List (String × ℚ)) : List String := m.map Prod.fst

/-- Total RRF weight one input list contributes to an id. -/
def rrfSum (rs : List ScoredResult) (j : String) : ℚ :=
  ((rs.filter (fun r => r.id == j)).map (fun r => rrfWeight r.rank)).sum

/-- `Store.Search` (search file, lines 10-55). The FTS5 engine is
external: its outcome arrives as `ftsOutcome` (`error` on malformed
query syntax, `ok` with the ranked rows otherwise).  `vectorSearch` in
this code path literally returns `nil, nil`, so the vector list is
empty. Empty query, and an empty fused list, fall back to `List`. -/
def searchOp (st : StoreState) (ftsOutcome : Except Unit (List ScoredResult))
    (query : String) (limit : Nat) : List Bookmark :=
  if query = "" then listOp st [] limit
  else
    let ftsResults := match ftsOutcome with
      | .error _ => []
      | .ok rs => rs
    let vecResults : List ScoredResult := []
    let combined := hybridRank ftsResults vecResults
    if combined.isEmpty then listOp st [] limit
    else (combined.take limit).filterMap (fun sr => getBookmark st sr.id)

/-! ## Enrichment pipeline (internal/indexer/indexer.go)

The external providers (scraper, summarizer, embedder) are stateless
calls whose outcomes are passed in as `Except` arguments. -/

/-- The Go `SummaryResult` (summarizer file); `RawResponse` is debug
output only and is never read by the pipeline. -/
structure SummaryResult where
  summary : String
  keywords : String
deriving Repr, DecidableEq

/-- Result of processing one pending item: the bookmark value handed to
`store.Update`, the new store state, and whether the summarize/embed
calls were reached. -/
structure ProcessOutcome where
  persisted : Bookmark
  state : StoreState
  summarizeCalled : Bool
  embedCalled : Bool
deriving Repr, DecidableEq

/-- Summarize step (indexer.go lines 230-249): runs only when the
summary is empty and a summarizer exists; an error or nil result is
only logged; generated keywords never overwrite populated ones. -/
def summarizeStep (b : Bookmark) (hasSummarizer : Bool)
    (sumRes : Except String (Option SummaryResult)) : Bookmark :=
  if b.summary = "" && hasSummarizer then
    match sumRes with
    | .error _ => b
    | .ok none => b
    | .ok (some r) =>
        { b with summary := r.summary,
                 keywords := if b.keywords = "" then r.keywords else b.keywords }
  else b

/-- Embed step: `store.UpdateEmbedding` on success, previous embedding
kept on error; the `bookmarks` table is untouched either way. -/
def embedStep (st : StoreState) (id : String) (hasEmbedder : Bool)
    (embedRes : Except String (List ℚ)) : StoreState :=
  if hasEmbedder then
    match embedRes with
    | .error _ => st
    | .ok v => updateEmbedding st id v
  else st

/-- Steps 2-4 of the per-item loop (indexer.go lines 229-271), reached
once content is available: summarize, embed, then mark `success`,
stamp `scraped_at := now` and persist via `store.Update`. -/
def processAfterContent (now : Nat) (st : StoreState) (b : Bookmark)
    (hasSummarizer : Bool) (sumRes : Except String (Option SummaryResult))
    (hasEmbedder : Bool) (embedRes : Except String (List ℚ)) : ProcessOutcome :=
  let b1 := summarizeStep b hasSummarizer sumRes
  let st1 := embedStep st b1.id hasEmbedder embedRes
  let b2 := { b1 with scrapeStatus := "success", scrapedAt := now }
  let (b3, st2) := updateOp now st1 b2
  ⟨b3, st2, b.summary = "" && hasSummarizer, hasEmbedder⟩

/-- One iteration of the pending loop (indexer.go lines 206-272): if
`raw_content` is empty the scraper runs first — on error the item is
persisted as `failed` and the loop continues with the next item (no
summarize/embed); otherwise, or when content is already present,
processing continues with `processAfterContent`. -/
def processPendingItem (now : Nat) (st : StoreState) (b : Bookmark)
    (scrapeRes : Except String String)
    (hasSummarizer : Bool) (sumRes : Except String (Option SummaryResult))
    (hasEmbedder : Bool) (embedRes : Except String (List ℚ)) : ProcessOutcome :=
  if b.rawContent = "" then
    match scrapeRes with
    | .error _ =>
        let bFailed := { b with scrapeStatus := "failed" }
        let (b1, st1) := updateOp now st bFailed
        ⟨b1, st1, false, false⟩
    | .ok content =>
        processAfterContent now st { b with rawContent := content }
          hasSummarizer sumRes hasEmbedder embedRes
  else
    processAfterContent now st b hasSummarizer sumRes hasEmbedder embedRes

/-- Title extraction of `AddManualURL` (indexer.go lines 325-338): the
first 100 runes, cut at the first newline among them. -/
def manualTitle (content : String) : String :=
  let cs := content.data
  let e0 := min 100 cs.length
  let cut := match (cs.take e0).findIdx? (fun c => c == '\n') with
    | some i => i
    | none => e0
  String.mk (cs.take cut)

/-- `AddManualURL` (indexer.go lines 291-367). Returns the Go error
value and the final store state. An existing URL errors out before any
write; a scrape failure leaves the freshly upserted pending row and
returns nil; summarize/embed failures are only logged. -/
def addManualURL (now : Nat) (st : StoreState) (url : String)
    (scrapeRes : Except String String)
    (sumRes : Except String (Option SummaryResult))
    (embedderAvailable : Bool) (embedRes : Except String (List ℚ)) :
    Option String × StoreState :=
  match getByURL st url with
  | some _ => (some "URL already indexed", st)
  | none =>
    let b : Bookmark :=
      { id := "", source := "manual", url := url, title := url,
        summary := "", keywords := "", notes := "", rawContent := "",
        createdAt := 0, updatedAt := 0, scrapedAt := 0,
        scrapeStatus := "pending", hidden := false }
    match upsertReturningNew now st b with
    | .error e => (some e, st)
    | .ok (_, b1, st1) =>
      match scrapeRes with
      | .error _ => (none, st1)
      | .ok content =>
        let b2 := { b1 with rawContent := content }
        let b3 := if content.length > 0 then { b2 with title := manualTitle content } else b2
        let b4 := match sumRes with
          | .error _ => b3
          | .ok none => b3
          | .ok (some r) => { b3 with summary := r.summary, keywords := r.keywords }
        let st2 :=
          if embedderAvailable then
            match embedRes with
            | .error _ => st1
            | .ok v => updateEmbedding st1 b4.id v
          else st1
        let b5 := { b4 with scrapeStatus := "success", scrapedAt := now }
        let (_, st3) := updateOp now st2 b5
        (none, st3)

/-! ## Concrete fixtures for the claims -/

/-- Bookmark of the first upsert of the merge scenario: every enrichable
field populated. -/
def c1First : Bookmark :=
  { id := "", source := "raindrop", url := "https://e.com", title := "T", summary := "S",
    keywords := "k", notes := "n", rawContent := "R", createdAt := 5, updatedAt := 0,
    scrapedAt := 0, scrapeStatus := "success", hidden := false }

/-- Second upsert of the same URL with empty incoming text fields (what
a shallow source item carries). -/
def c1Second : Bookmark :=
  { c1First with title := "", summary := "", keywords := "", notes := "", rawContent := "" }

/-- Stored `summary` column after upserting `c1First` into an empty
store, and after then upserting `c1Second` over it. -/
def c1Trace : Option (List (Option String) × List (Option String)) :=
  match upsertReturningNew 1 emptyStore c1First with
  | .error _ => none
  | .ok (_, _, st1) =>
    match upsertReturningNew 2 st1 c1Second with
    | .error _ => none
    | .ok (_, _, st2) =>
      some (st1.bookmarks.map Row.summary, st2.bookmarks.map Row.summary)

/-- A plain github-sourced row. -/
def ghRow (id url : String) : Row :=
  { id := id, source := "github", url := url, title := some "t", summary := some "",
    keywords := some "", notes := some "", rawContent := some "", createdAt := 1,
    updatedAt := 1, scrapedAt := none, scrapeStatus := some "pending", hidden := false }

/-- Store holding three previously synced github URLs. -/
def c8Store : StoreState := ⟨[ghRow "i1" "u1", ghRow "i2" "u2", ghRow "i3" "u3"], [], []⟩

/-- Store with one bookmark and its embedding. -/
def c9Store : StoreState := ⟨[ghRow "a" "u1"], [("a", [1, 2, 3])], []⟩

/-- Lexical ranks of the spec's RRF example: `[A:1, B:2]`. -/
def c2Lex : List ScoredResult := [⟨"A", 0, 1⟩, ⟨"B", 0, 2⟩]

/-- Vector ranks of the spec's RRF example: `[B:1, C:2]`. -/
def c2Vec : List ScoredResult := [⟨"B", 0, 1⟩, ⟨"C", 0, 2⟩]

/-- Lexical input producing a fused-score tie: `A` at rank 1. -/
def c3Lex : List ScoredResult := [⟨"A", 0, 1⟩]

/-- Vector input producing a fused-score tie: `B` at rank 1. -/
def c3Vec : List ScoredResult := [⟨"B", 0, 1⟩]

/-- Vector input with a distinct fused score: `C` at rank 2. -/
def c3dVec : List ScoredResult := [⟨"C", 0, 2⟩]

/-- A fresh manual bookmark with no id yet. -/
def c5Fresh : Bookmark :=
  { id := "", source := "manual", url := "https://example.com", title := "Example",
    summary := "", keywords := "", notes := "", rawContent := "", createdAt := 0,
    updatedAt := 0, scrapedAt := 0, scrapeStatus := "pending", hidden := false }

/-! ## Claim C1 — merge-don't-clobber on upsert

`UpsertReturningNew` guards each text column with
`COALESCE(excluded.col, bookmarks.col)`, but the Go driver binds a Go
`string` as SQL text: an empty incoming `summary` arrives as `''`, not
NULL, so `COALESCE` selects it and the stored non-empty value is
erased.  Only `scraped_at`, bound through a nil `interface{}` when the
Go time is zero, actually merges.  The claim (and the spec's
merge-don't-clobber property) therefore fails on the code. -/

/-- C1 (code bug): after upserting `c1First` (stored summary `"S"`) and
then upserting `c1Second` with an empty incoming summary over the same
URL, the stored summary is the empty string — the empty incoming value
clobbered the non-empty stored one, where the claim requires it to
survive. -/
theorem claim1_upsert_empty_clobbers :
    c1Trace = some ([some "S"], [some ""]) := by decide

/-! ## Claim C4 — search falls back to the plain listing -/

/-- C4: for a non-empty query whose lexical search errors (malformed
FTS5 syntax) or returns no rows — vector search in this path always
returns nothing — `Store.Search` returns exactly what `Store.List`
returns for the non-hidden listing. -/
theorem claim4_search_fallback (st : StoreState) (ftsOutcome : Except Unit (List ScoredResult))
    (query : String) (limit : Nat) (hq : query ≠ "")
    (hfts : ftsOutcome = .error () ∨ ftsOutcome = .ok []) :
    searchOp st ftsOutcome query limit = listOp st [] limit := by
  rcases hfts with h | h <;> subst h <;>
    simp [searchOp, hq, hybridRank, hybridRankEnum, rrfScores, rrfAccum, sortScoredDesc]

/-- C4 witness: a concrete malformed-syntax error and a concrete
no-rows outcome both fall back to the listing on `c8Store`. -/
theorem claim4_witness :
    ("weird /\"query" ≠ "" ∧
      searchOp c8Store (.error ()) "weird /\"query" 10 = listOp c8Store [] 10) ∧
    searchOp c8Store (.ok []) "nohits" 10 = listOp c8Store [] 10 :=
  ⟨⟨by decide, claim4_search_fallback c8Store (.error ()) "weird /\"query" 10 (by decide)
      (Or.inl rfl)⟩,
   claim4_search_fallback c8Store (.ok []) "nohits" 10 (by decide) (Or.inr rfl)⟩

/-! ## Claim C8 — orphan detection -/

/-- C8: `GetOrphanedBySource` returns exactly the stored bookmarks of
the source whose URL is not among the current URLs; with an empty
current list it returns every bookmark of the source; and on the
concrete three-stored / two-current scenario it returns exactly the one
missing URL's bookmark. -/
theorem claim8_orphans (st : StoreState) (src : String) (urls : List String) :
    getOrphanedBySource st src urls =
      (st.bookmarks.filter (fun r => r.source == src && !(urls.contains r.url))).map orphanView ∧
    getOrphanedBySource st src [] = getBookmarksBySource st src ∧
    getOrphanedBySource c8Store "github" ["u1", "u2"] = [orphanView (ghRow "i3" "u3")] := by
  refine ⟨?_, ?_, by decide⟩
  · by_cases h : urls = []
    · subst h
      simp [getOrphanedBySource, getBookmarksBySource]
    · simp [getOrphanedBySource, h]
  · simp [getOrphanedBySource]

/-! ## Claim C9 — delete cascades and is idempotent -/

/-- C9: `Store.Delete` removes both the embedding row and the bookmark
row of the id; deleting again is the identity; deleting an id not in
the store (under the embedding-ownership invariant) changes nothing and
the operation never returns an error; and the no-orphaned-embedding
invariant is preserved. -/
theorem claim9_delete (st : StoreState) (id : String) :
    (∀ e ∈ (deleteOp st id).embeddings, e.1 ≠ id) ∧
    (∀ r ∈ (deleteOp st id).bookmarks, r.id ≠ id) ∧
    deleteOp (deleteOp st id) id = deleteOp st id ∧
    ((∀ r ∈ st.bookmarks, r.id ≠ id) →
      (∀ e ∈ st.embeddings, ∃ r ∈ st.bookmarks, r.id = e.1) → deleteOp st id = st) ∧
    ((∀ e ∈ st.embeddings, ∃ r ∈ st.bookmarks, r.id = e.1) →
      ∀ e ∈ (deleteOp st id).embeddings, ∃ r ∈ (deleteOp st id).bookmarks, r.id = e.1) := by
  obtain ⟨bs, es, ms⟩ := st
  refine ⟨?_, ?_, ?_, ?_, ?_⟩
  · intro e he
    simpa using (List.mem_filter.mp he).2
  · intro r hr
    simpa using (List.mem_filter.mp hr).2
  · simp [deleteOp, List.filter_filter]
  · intro hb hemb
    simp only [deleteOp]
    congr 1
    · exact List.filter_eq_self.mpr fun r hr => by simpa using hb r hr
    · exact List.filter_eq_self.mpr fun e he => by
        obtain ⟨r, hr, hre⟩ := hemb e he
        simpa [hre] using hb r hr
  · intro hemb e he
    have he' := List.mem_filter.mp he
    obtain ⟨r, hr, hre⟩ := hemb e he'.1
    refine ⟨r, List.mem_filter.mpr ⟨hr, ?_⟩, hre⟩
    simpa [hre] using he'.2

/-- C9 witness: on the concrete one-bookmark-with-embedding store,
deleting removes both rows, a second delete is the identity, and
deleting an absent id leaves the store untouched. -/
theorem claim9_witness :
    (∀ e ∈ (deleteOp c9Store "a").embeddings, e.1 ≠ "a") ∧
    deleteOp (deleteOp c9Store "a") "a" = deleteOp c9Store "a" ∧
    deleteOp c9Store "zz" = c9Store :=
  ⟨(claim9_delete c9Store "a").1,
   (claim9_delete c9Store "a").2.2.1,
   (claim9_delete c9Store "zz").2.2.2.1 (by decide) (by decide)⟩

/-! ## Claim C10 — manual add of an existing URL -/

/-- C10: when the URL is already stored, `AddManualURL` returns the
"URL already indexed" error before performing any write: the returned
state is the input state. -/
theorem claim10_addManual_existing (now : Nat) (st : StoreState) (url : String)
    (bk : Bookmark) (hex : getByURL st url = some bk)
    (scrapeRes : Except String String) (sumRes : Except String (Option SummaryResult))
    (emb : Bool) (embedRes : Except String (List ℚ)) :
    addManualURL now st url scrapeRes sumRes emb embedRes =
      (some "URL already indexed", st) := by
  unfold addManualURL
  rw [hex]

/-- C10 witness: adding `"u1"`, which `c8Store` already holds, errors
out and leaves the store unchanged. -/
theorem claim10_witness :
    getByURL c8Store "u1" = some (rowToBookmark (ghRow "i1" "u1")) ∧
    addManualURL 7 c8Store "u1" (.ok "text") (.ok none) false (.error "e") =
      (some "URL already indexed", c8Store) :=
  ⟨by decide,
   claim10_addManual_existing 7 c8Store "u1" (rowToBookmark (ghRow "i1" "u1")) (by decide)
     (.ok "text") (.ok none) false (.error "e")⟩

/-! ## Claim C6 — per-item pipeline status -/

/-- Helper: the summarize step never changes the bookmark id. -/
theorem summarizeStep_id (b : Bookmark) (h : Bool) (s : Except String (Option SummaryResult)) :
    (summarizeStep b h s).id = b.id := by
  unfold summarizeStep
  rcases s with _ | q
  · split <;> rfl
  · rcases q with _ | q <;> split <;> rfl

/-- Helper: the embed step never touches the `bookmarks` table. -/
theorem embedStep_bookmarks (st : StoreState) (id : String) (h : Bool)
    (e : Except String (List ℚ)) : (embedStep st id h e).bookmarks = st.bookmarks := by
  unfold embedStep
  rcases e with _ | v <;> split <;> rfl

/-- Helper: after `store.Update`, the row carrying the bookmark's id
holds the bookmark's `scrape_status`. -/
theorem updateOp_row_statusOnly (now : Nat) (st : StoreState) (b : Bookmark) :
    ∀ r ∈ (updateOp now st b).2.bookmarks, r.id = b.id →
      r.scrapeStatus = some b.scrapeStatus := by
  intro r hr hid
  simp only [updateOp, List.mem_map] at hr
  obtain ⟨r0, hr0, hr0eq⟩ := hr
  subst hr0eq
  by_cases hc : r0.id = b.id
  · rw [if_pos hc]
  · rw [if_neg hc] at hid ⊢
    exact absurd hid hc

/-- Helper: after `store.Update` with a non-zero `scraped_at`, the row
carrying the bookmark's id holds its status and timestamp. -/
theorem updateOp_row_status (now : Nat) (st : StoreState) (b : Bookmark)
    (hb : b.scrapedAt ≠ 0) :
    ∀ r ∈ (updateOp now st b).2.bookmarks, r.id = b.id →
      r.scrapeStatus = some b.scrapeStatus ∧ r.scrapedAt = some b.scrapedAt := by
  intro r hr hid
  simp only [updateOp, List.mem_map] at hr
  obtain ⟨r0, hr0, hr0eq⟩ := hr
  subst hr0eq
  by_cases hc : r0.id = b.id
  · rw [if_pos hc]
    exact ⟨rfl, by simp [hb]⟩
  · rw [if_neg hc] at hid ⊢
    exact absurd hid hc

/-- C6: in the pending-item loop, a scrape failure (reached only when
`raw_content` is empty) persists the item as `failed` without reaching
the summarize or embed steps; a scrape success, or `raw_content`
already non-empty, persists the item as `success` with `scraped_at`
stamped, for every summarizer/embedder outcome. -/
theorem claim6_pipeline_status (now : Nat) (st : StoreState) (b : Bookmark) (e : String)
    (content : String) (hasSum : Bool) (sumRes : Except String (Option SummaryResult))
    (hasEmb : Bool) (embedRes : Except String (List ℚ))
    (scrapeRes : Except String String) (hnow : now ≠ 0) :
    (b.rawContent = "" →
      (processPendingItem now st b (.error e) hasSum sumRes hasEmb embedRes).persisted.scrapeStatus
          = "failed" ∧
      (processPendingItem now st b (.error e) hasSum sumRes hasEmb embedRes).summarizeCalled
          = false ∧
      (processPendingItem now st b (.error e) hasSum sumRes hasEmb embedRes).embedCalled
          = false ∧
      (∀ r ∈ (processPendingItem now st b (.error e) hasSum sumRes hasEmb
          embedRes).state.bookmarks, r.id = b.id → r.scrapeStatus = some "failed")) ∧
    (b.rawContent = "" →
      (processPendingItem now st b (.ok content) hasSum sumRes hasEmb embedRes).persisted.scrapeStatus
          = "success" ∧
      (processPendingItem now st b (.ok content) hasSum sumRes hasEmb embedRes).persisted.scrapedAt
          = now ∧
      (∀ r ∈ (processPendingItem now st b (.ok content) hasSum sumRes hasEmb
          embedRes).state.bookmarks,
        r.id = b.id → r.scrapeStatus = some "success" ∧ r.scrapedAt = some now)) ∧
    (b.rawContent ≠ "" →
      (processPendingItem now st b scrapeRes hasSum sumRes hasEmb embedRes).persisted.scrapeStatus
          = "success" ∧
      (processPendingItem now st b scrapeRes hasSum sumRes hasEmb embedRes).persisted.scrapedAt
          = now ∧
      (∀ r ∈ (processPendingItem now st b scrapeRes hasSum sumRes hasEmb
          embedRes).state.bookmarks,
        r.id = b.id → r.scrapeStatus = some "success" ∧ r.scrapedAt = some now)) := by
  have hsucc : ∀ (st0 : StoreState) (b0 : Bookmark),
      (processAfterContent now st0 b0 hasSum sumRes hasEmb embedRes).persisted.scrapeStatus
          = "success" ∧
      (processAfterContent now st0 b0 hasSum sumRes hasEmb embedRes).persisted.scrapedAt = now ∧
      (∀ r ∈ (processAfterContent now st0 b0 hasSum sumRes hasEmb embedRes).state.bookmarks,
        r.id = b0.id → r.scrapeStatus = some "success" ∧ r.scrapedAt = some now) := by
    intro st0 b0
    refine ⟨rfl, rfl, ?_⟩
    intro r hr hid
    have h := updateOp_row_status now
      (embedStep st0 (summarizeStep b0 hasSum sumRes).id hasEmb embedRes)
      { summarizeStep b0 hasSum sumRes with scrapeStatus := "success", scrapedAt := now }
      hnow r hr (hid.trans (summarizeStep_id b0 hasSum sumRes).symm)
    exact h
  refine ⟨?_, ?_, ?_⟩
  · intro hraw
    have hred : processPendingItem now st b (.error e) hasSum sumRes hasEmb embedRes =
        ⟨(updateOp now st { b with scrapeStatus := "failed" }).1,
         (updateOp now st { b with scrapeStatus := "failed" }).2, false, false⟩ := by
      simp [processPendingItem, hraw]
    rw [hred]
    refine ⟨rfl, rfl, rfl, ?_⟩
    intro r hr hid
    exact updateOp_row_statusOnly now st { b with scrapeStatus := "failed" } r hr hid
  · intro hraw
    have hred : processPendingItem now st b (.ok content) hasSum sumRes hasEmb embedRes =
        processAfterContent now st { b with rawContent := content } hasSum sumRes hasEmb
          embedRes := by
      simp [processPendingItem, hraw]
    rw [hred]
    obtain ⟨h1, h2, h3⟩ := hsucc st { b with rawContent := content }
    exact ⟨h1, h2, fun r hr hid => h3 r hr hid⟩
  · intro hraw
    have hred : processPendingItem now st b scrapeRes hasSum sumRes hasEmb embedRes =
        processAfterContent now st b hasSum sumRes hasEmb embedRes := by
      simp [processPendingItem, hraw]
    rw [hred]
    exact hsucc st b

/-- C6 witness: a concrete item with no content on a concrete store,
once with a failing scrape and once with a succeeding one. -/
theorem claim6_witness :
    (rowToBookmark (ghRow "i1" "u1")).rawContent = "" ∧
    (processPendingItem 9 c8Store (rowToBookmark (ghRow "i1" "u1")) (.error "timeout") true
        (.ok (some ⟨"sum", "kw"⟩)) true (.ok [1])).persisted.scrapeStatus = "failed" ∧
    (processPendingItem 9 c8Store (rowToBookmark (ghRow "i1" "u1")) (.ok "body") true
        (.error "llm down") true (.error "api down")).persisted.scrapeStatus = "success" := by
  have h := claim6_pipeline_status 9 c8Store (rowToBookmark (ghRow "i1" "u1")) "timeout"
    "body" true (.ok (some ⟨"sum", "kw"⟩)) true (.ok [1]) (.ok "body") (by decide)
  have h2 := claim6_pipeline_status 9 c8Store (rowToBookmark (ghRow "i1" "u1")) "timeout"
    "body" true (.error "llm down") true (.error "api down") (.ok "body") (by decide)
  exact ⟨by decide, (h.1 (by decide)).1, (h2.2.1 (by decide)).1⟩

/-! ## Claim C7 — reprocess reset -/

/-- C7: `MarkForReprocess` on a non-empty id list rewrites exactly the
rows whose id is listed — setting `scrape_status = pending` and
clearing `raw_content`, `summary`, `keywords` while every other column
keeps its value — leaves all other rows unchanged, makes a listed row
show up in `GetPending`, and is a no-op on the empty id list. -/
theorem claim7_markForReprocess (st : StoreState) (ids : List String) (limit : Nat)
    (i : Nat) (r : Row) (hne : ids ≠ []) (hr : r ∈ st.bookmarks) (hin : ids.contains r.id)
    (hlim : st.bookmarks.length ≤ limit) :
    markForReprocess st [] = st ∧
    (markForReprocess st ids).bookmarks[i]? =
      st.bookmarks[i]?.map (fun q => if ids.contains q.id then reprocessReset q else q) ∧
    ((reprocessReset r).scrapeStatus = some "pending" ∧ (reprocessReset r).rawContent = some "" ∧
     (reprocessReset r).summary = some "" ∧ (reprocessReset r).keywords = some "" ∧
     (reprocessReset r).id = r.id ∧ (reprocessReset r).source = r.source ∧
     (reprocessReset r).url = r.url ∧ (reprocessReset r).title = r.title ∧
     (reprocessReset r).notes = r.notes ∧ (reprocessReset r).createdAt = r.createdAt ∧
     (reprocessReset r).updatedAt = r.updatedAt ∧ (reprocessReset r).scrapedAt = r.scrapedAt ∧
     (reprocessReset r).hidden = r.hidden) ∧
    rowToBookmark (reprocessReset r) ∈ getPending (markForReprocess st ids) limit := by
  refine ⟨by simp [markForReprocess], ?_, ?_, ?_⟩
  · simp [markForReprocess, hne]
  · exact ⟨rfl, rfl, rfl, rfl, rfl, rfl, rfl, rfl, rfl, rfl, rfl, rfl, rfl⟩
  · unfold getPending markForReprocess
    rw [if_neg hne]
    have hmem : reprocessReset r ∈
        st.bookmarks.map (fun q => if ids.contains q.id then reprocessReset q else q) :=
      List.mem_map.mpr ⟨r, hr, by rw [if_pos hin]⟩
    set l := st.bookmarks.map (fun q => if ids.contains q.id then reprocessReset q else q) with hl
    have hflt : reprocessReset r ∈ l.filter
        (fun q => q.scrapeStatus == some "pending" || q.scrapeStatus == some "failed") :=
      List.mem_filter.mpr ⟨hmem, by simp [reprocessReset]⟩
    have hlen : (l.filter
        (fun q => q.scrapeStatus == some "pending" || q.scrapeStatus == some "failed")).length
        ≤ limit :=
      le_trans (le_trans (List.length_filter_le _ _) (by simp [hl])) hlim
    rw [List.take_of_length_le hlen]
    exact List.mem_map.mpr ⟨reprocessReset r, hflt, rfl⟩

/-- C7 witness: resetting the concrete id `"i2"` in `c8Store`. -/
theorem claim7_witness :
    (["i2"] : List String) ≠ [] ∧ ghRow "i2" "u2" ∈ c8Store.bookmarks ∧
    rowToBookmark (reprocessReset (ghRow "i2" "u2")) ∈
      getPending (markForReprocess c8Store ["i2"]) 10 := by
  refine ⟨by decide, by decide, ?_⟩
  exact (claim7_markForReprocess c8Store ["i2"] 10 0 (ghRow "i2" "u2") (by decide) (by decide)
    (by decide) (by decide)).2.2.2

/-! ## Claim C5 — upsert idempotence at the identity level -/

/-- Helper: when no stored row carries the bookmark's URL (and none its
derived id), `UpsertReturningNew` takes the insert path: it reports
new, derives the id for an empty incoming `ID`, defaults `created_at`
to now, and appends the row. -/
theorem upsert_insert_case (now : Nat) (st : StoreState) (b : Bookmark)
    (hnourl : ∀ r ∈ st.bookmarks, r.url ≠ b.url)
    (hnoid : ∀ r ∈ st.bookmarks, r.id ≠ (if b.id = "" then generateID b.url else b.id)) :
    upsertReturningNew now st b =
      .ok (true,
        { b with id := if b.id = "" then generateID b.url else b.id,
                 updatedAt := now,
                 createdAt := if b.createdAt = 0 then now else b.createdAt },
        { st with bookmarks := st.bookmarks ++
            [rowOfInsert
              { b with id := if b.id = "" then generateID b.url else b.id,
                       updatedAt := now,
                       createdAt := if b.createdAt = 0 then now else b.createdAt }] }) := by
  have hany1 : st.bookmarks.any (fun r => r.url = b.url) = false := by
    simp only [List.any_eq_false, decide_eq_true_eq]
    exact hnourl
  have hall1 : st.bookmarks.all (fun r => r.url ≠ b.url) = true := by
    simp only [List.all_eq_true, ne_eq, decide_not, Bool.not_eq_eq_eq_not, Bool.not_true,
      decide_eq_false_iff_not]
    exact hnourl
  by_cases hc : b.id = ""
  · have hany2 : st.bookmarks.any (fun r => r.id = generateID b.url) = false := by
      simp only [List.any_eq_false, decide_eq_true_eq]
      intro r hr
      simpa [hc] using hnoid r hr
    simp [upsertReturningNew, hc, hany1, hall1, hany2]
    exact hnourl
  · have hany2 : st.bookmarks.any (fun r => r.id = b.id) = false := by
      simp only [List.any_eq_false, decide_eq_true_eq]
      intro r hr
      simpa [hc] using hnoid r hr
    simp [upsertReturningNew, hc, hany1, hall1, hany2]
    exact hnourl

/-- Helper: when some stored row carries the bookmark's URL,
`UpsertReturningNew` reports not-new and applies the conflict update to
the matching rows. -/
theorem upsert_update_case (now : Nat) (st : StoreState) (b : Bookmark)
    (hex : ∃ r ∈ st.bookmarks, r.url = b.url) :
    upsertReturningNew now st b =
      .ok (false,
        { b with id := if b.id = "" then generateID b.url else b.id,
                 updatedAt := now,
                 createdAt := if b.createdAt = 0 then now else b.createdAt },
        { st with bookmarks := st.bookmarks.map (fun r =>
            if r.url = b.url then
              rowOnConflictUpdate
                { b with id := if b.id = "" then generateID b.url else b.id,
                         updatedAt := now,
                         createdAt := if b.createdAt = 0 then now else b.createdAt } r
            else r) }) := by
  obtain ⟨r0, hr0, hr0url⟩ := hex
  have hany1 : st.bookmarks.any (fun r => r.url = b.url) = true := by
    simp only [List.any_eq_true, decide_eq_true_eq]
    exact ⟨r0, hr0, hr0url⟩
  have hall1 : st.bookmarks.all (fun r => r.url ≠ b.url) = false := by
    simp only [List.all_eq_false]
    exact ⟨r0, hr0, by simpa using hr0url⟩
  by_cases hc : b.id = "" <;>
    (simp [upsertReturningNew, hc, hany1, hall1]; exact ⟨r0, hr0, hr0url⟩)

/-- C5: upserting a fresh bookmark (empty incoming `ID`) for a URL not
yet stored, then upserting another fresh bookmark with the same URL,
leaves exactly one stored row for that URL; the first call reports new,
the second reports existing, and both calls derive the same id
`generateID url` — the id is a pure function of the URL. -/
theorem claim5_upsert_idempotent (st : StoreState) (now1 now2 : Nat) (b1 b2 : Bookmark)
    (hurl : b2.url = b1.url) (hid1 : b1.id = "") (hid2 : b2.id = "")
    (hnourl : ∀ r ∈ st.bookmarks, r.url ≠ b1.url)
    (hnoid : ∀ r ∈ st.bookmarks, r.id ≠ generateID b1.url) :
    ∃ res1 res2,
      upsertReturningNew now1 st b1 = .ok res1 ∧
      upsertReturningNew now2 res1.2.2 b2 = .ok res2 ∧
      res1.1 = true ∧ res2.1 = false ∧
      res1.2.1.id = generateID b1.url ∧ res2.2.1.id = generateID b1.url ∧
      (res2.2.2.bookmarks.filter (fun r => r.url == b1.url)).length = 1 := by
  have e1 := upsert_insert_case now1 st b1 hnourl (by simpa [hid1] using hnoid)
  set bNew : Bookmark :=
    { b1 with id := if b1.id = "" then generateID b1.url else b1.id,
              updatedAt := now1,
              createdAt := if b1.createdAt = 0 then now1 else b1.createdAt } with hbNew
  set st1 : StoreState :=
    { st with bookmarks := st.bookmarks ++ [rowOfInsert bNew] } with hst1
  have hex2 : ∃ r ∈ st1.bookmarks, r.url = b2.url := by
    refine ⟨rowOfInsert bNew, ?_, ?_⟩
    · rw [hst1]
      simp
    · rw [hbNew]
      exact hurl.symm
  have e2 := upsert_update_case now2 st1 b2 hex2
  refine ⟨_, _, e1, e2, rfl, rfl, by rw [hbNew]; simp [hid1], by simp [hid2, hurl], ?_⟩
  rw [← List.countP_eq_length_filter, List.countP_map]
  have hcongr := List.countP_congr (l := st1.bookmarks)
    (p := (fun r : Row => r.url == b1.url) ∘ (fun r =>
        if r.url = b2.url then
          rowOnConflictUpdate
            { b2 with id := if b2.id = "" then generateID b2.url else b2.id,
                      updatedAt := now2,
                      createdAt := if b2.createdAt = 0 then now2 else b2.createdAt } r
        else r))
    (q := fun r : Row => r.url == b1.url)
    (fun r _ => by
      simp only [Function.comp]
      constructor
      · intro h
        revert h
        split <;> exact fun h => h
      · intro h
        revert h
        split <;> exact fun h => h)
  rw [hcongr, hst1]
  show (st.bookmarks ++ [rowOfInsert bNew]).countP (fun r => r.url == b1.url) = 1
  rw [List.countP_append]
  have h0 : st.bookmarks.countP (fun r => r.url == b1.url) = 0 := by
    rw [List.countP_eq_zero]
    intro r hr
    simpa using hnourl r hr
  have h1 : ([rowOfInsert bNew].countP (fun r => r.url == b1.url)) = 1 := by
    rw [List.countP_singleton, hbNew]
    simp [rowOfInsert]
  rw [h0, h1]

/-- C5 witness: upserting the fresh `https://example.com` bookmark
twice into the empty store. -/
theorem claim5_witness :
    (∀ r ∈ emptyStore.bookmarks, r.url ≠ c5Fresh.url) ∧
    (∃ res1 res2,
      upsertReturningNew 1 emptyStore c5Fresh = .ok res1 ∧
      upsertReturningNew 2 res1.2.2 c5Fresh = .ok res2 ∧
      res1.1 = true ∧ res2.1 = false ∧
      res1.2.1.id = generateID c5Fresh.url ∧ res2.2.1.id = generateID c5Fresh.url ∧
      (res2.2.2.bookmarks.filter (fun r => r.url == c5Fresh.url)).length = 1) :=
  ⟨by simp [emptyStore],
   claim5_upsert_idempotent emptyStore 1 2 c5Fresh c5Fresh rfl rfl rfl
     (by simp [emptyStore]) (by simp [emptyStore])⟩

/-! ## Reciprocal rank fusion: sorting and score-map lemmas -/

/-- Helper: inserting into the descending sort permutes a cons. -/
theorem insertScoredDesc_perm (a : ScoredResult) (l : List ScoredResult) :
    (insertScoredDesc a l).Perm (a :: l) := by
  induction l with
  | nil => exact List.Perm.refl _
  | cons b t ih =>
    unfold insertScoredDesc
    by_cases h : b.score ≤ a.score
    · rw [if_pos h]
    · rw [if_neg h]
      exact (ih.cons b).trans (List.Perm.swap a b t)

/-- Helper: the descending sort permutes its input. -/
theorem sortScoredDesc_perm (l : List ScoredResult) : (sortScoredDesc l).Perm l := by
  induction l with
  | nil => exact List.Perm.refl _
  | cons a t ih =>
    exact (insertScoredDesc_perm a (sortScoredDesc t)).trans (ih.cons a)

/-- Helper: inserting keeps the list sorted by non-increasing score. -/
theorem insertScoredDesc_sorted (a : ScoredResult) (l : List ScoredResult)
    (h : scoresSortedDesc l) : scoresSortedDesc (insertScoredDesc a l) := by
  induction l with
  | nil => simp [insertScoredDesc, scoresSortedDesc]
  | cons b t ih =>
    unfold scoresSortedDesc at h
    rw [List.pairwise_cons] at h
    unfold insertScoredDesc
    by_cases hc : b.score ≤ a.score
    · rw [if_pos hc]
      unfold scoresSortedDesc
      rw [List.pairwise_cons]
      refine ⟨?_, List.Pairwise.cons h.1 h.2⟩
      intro x hx
      rcases List.mem_cons.mp hx with rfl | hx'
      · exact hc
      · exact (h.1 x hx').trans hc
    · rw [if_neg hc]
      unfold scoresSortedDesc
      rw [List.pairwise_cons]
      refine ⟨?_, ih h.2⟩
      intro x hx
      rcases List.mem_cons.mp ((insertScoredDesc_perm a t).mem_iff.mp hx) with rfl | hx'
      · exact le_of_lt (lt_of_not_le hc)
      · exact h.1 x hx'

/-- Helper: the descending sort is sorted by non-increasing score. -/
theorem sortScoredDesc_sorted (l : List ScoredResult) : scoresSortedDesc (sortScoredDesc l) := by
  induction l with
  | nil => simp [sortScoredDesc, scoresSortedDesc]
  | cons a t ih => exact insertScoredDesc_sorted a _ ih

/-- Helper: two permuted lists, both sorted by non-increasing score and
with pairwise-distinct scores, are equal — the content a comparison
sort must produce is unique when no two scores tie. -/
theorem sorted_nodupScores_unique (l1 : List ScoredResult) :
    ∀ l2, l1.Perm l2 → scoresSortedDesc l1 → scoresSortedDesc l2 →
      (l1.map ScoredResult.score).Nodup → l1 = l2 := by
  induction l1 with
  | nil =>
    intro l2 hp _ _ _
    exact (hp.symm.eq_nil).symm ▸ rfl
  | cons a t1 ih =>
    intro l2 hp hs1 hs2 hnd
    cases l2 with
    | nil => exact absurd hp.eq_nil (by simp)
    | cons b t2 =>
      have hab : a = b := by
        by_contra hne
        have hat2 : a ∈ t2 := by
          rcases List.mem_cons.mp (hp.mem_iff.mp (List.mem_cons_self a t1)) with h | h
          · exact absurd h hne
          · exact h
        have hbt1 : b ∈ t1 := by
          rcases List.mem_cons.mp (hp.symm.mem_iff.mp (List.mem_cons_self b t2)) with h | h
          · exact absurd h.symm hne
          · exact h
        have h1 : a.score ≤ b.score :=
          (List.pairwise_cons.mp hs2).1 a hat2
        have h2 : b.score ≤ a.score :=
          (List.pairwise_cons.mp hs1).1 b hbt1
        have hmem : a.score ∈ t1.map ScoredResult.score :=
          List.mem_map.mpr ⟨b, hbt1, le_antisymm h2 h1⟩
        exact (List.nodup_cons.mp (by simpa using hnd)).1 hmem
      subst hab
      have ht := ih t2 hp.cons_inv
        ((List.pairwise_cons.mp hs1).2) ((List.pairwise_cons.mp hs2).2)
        ((List.nodup_cons.mp (by simpa using hnd)).2)
      rw [ht]

/-- Helper: `rrfInsert` adds the increment at its key. -/
theorem lookupScore_rrfInsert_self (m : List (String × ℚ)) (id : String) (inc : ℚ) :
    lookupScore (rrfInsert m id inc) id = lookupScore m id + inc := by
  induction m with
  | nil => simp [rrfInsert, lookupScore]
  | cons p rest ih =>
    obtain ⟨k, v⟩ := p
    by_cases h : k = id
    · subst h
      simp [rrfInsert, lookupScore]
    · simp [rrfInsert, lookupScore, h, ih]

/-- Helper: `rrfInsert` leaves other keys unchanged. -/
theorem lookupScore_rrfInsert_other (m : List (String × ℚ)) (id j : String) (inc : ℚ)
    (h : j ≠ id) : lookupScore (rrfInsert m id inc) j = lookupScore m j := by
  induction m with
  | nil => simp [rrfInsert, lookupScore, Ne.symm h]
  | cons p rest ih =>
    obtain ⟨k, v⟩ := p
    by_cases hk : k = id
    · subst hk
      simp [rrfInsert, lookupScore, Ne.symm h]
    · simp [rrfInsert, lookupScore, hk, ih]

/-- Helper: one-step unfolding of the per-id weight sum. -/
theorem rrfSum_cons (r : ScoredResult) (t : List ScoredResult) (j : String) :
    rrfSum (r :: t) j = (if r.id = j then rrfWeight r.rank else 0) + rrfSum t j := by
  by_cases h : r.id = j <;> simp [rrfSum, h]

/-- Helper: folding a result list into the map adds each id's total
weight from that list. -/
theorem lookupScore_rrfAccum (rs : List ScoredResult) (m : List (String × ℚ)) (j : String) :
    lookupScore (rrfAccum m rs) j = lookupScore m j + rrfSum rs j := by
  induction rs generalizing m with
  | nil => simp [rrfAccum, rrfSum]
  | cons r t ih =>
    have hstep : rrfAccum m (r :: t) = rrfAccum (rrfInsert m r.id (rrfWeight r.rank)) t := rfl
    rw [hstep, ih, rrfSum_cons]
    by_cases h : r.id = j
    · rw [h, lookupScore_rrfInsert_self, if_pos rfl]
      ring
    · rw [lookupScore_rrfInsert_other m r.id j _ (Ne.symm h), if_neg h]
      ring

/-- Helper: the fused score stored in the map equals the spec's per-id
sum over both lists. -/
theorem lookupScore_rrfScores (fts vec : List ScoredResult) (j : String) :
    lookupScore (rrfScores fts vec) j = rrfScore fts vec j := by
  unfold rrfScores rrfScore
  rw [lookupScore_rrfAccum, lookupScore_rrfAccum]
  simp [lookupScore, rrfSum]

/-- Helper: inserting extends the key list only with a fresh key. -/
theorem keysOf_rrfInsert (m : List (String × ℚ)) (id : String) (inc : ℚ) :
    keysOf (rrfInsert m id inc) =
      if id ∈ keysOf m then keysOf m else keysOf m ++ [id] := by
  induction m with
  | nil => simp [rrfInsert, keysOf]
  | cons p rest ih =>
    obtain ⟨k, v⟩ := p
    by_cases h : k = id
    · subst h
      simp [rrfInsert, keysOf]
    · have hstep : rrfInsert ((k, v) :: rest) id inc = (k, v) :: rrfInsert rest id inc := by
        simp [rrfInsert, h]
      rw [hstep]
      have hkeys : keysOf ((k, v) :: rrfInsert rest id inc) =
          k :: keysOf (rrfInsert rest id inc) := rfl
      rw [hkeys, ih]
      by_cases hm : id ∈ keysOf rest
      · rw [if_pos hm,
          if_pos (show id ∈ keysOf ((k, v) :: rest) from List.mem_cons.mpr (Or.inr hm))]
        rfl
      · rw [if_neg hm, if_neg (show id ∉ keysOf ((k, v) :: rest) from by
          intro hmem
          rcases List.mem_cons.mp hmem with he | hm2
          · exact h he.symm
          · exact hm hm2)]
        rfl

/-- Helper: inserting preserves key distinctness. -/
theorem keysOf_nodup_rrfInsert (m : List (String × ℚ)) (id : String) (inc : ℚ)
    (h : (keysOf m).Nodup) : (keysOf (rrfInsert m id inc)).Nodup := by
  rw [keysOf_rrfInsert]
  split
  · exact h
  · rename_i hm
    simp [List.Nodup, List.pairwise_append, h, hm]
    exact ⟨h, fun a ha he => hm (he ▸ ha)⟩

/-- Helper: accumulating a result list preserves key distinctness. -/
theorem keysOf_rrfAccum_nodup (rs : List ScoredResult) (m : List (String × ℚ))
    (h : (keysOf m).Nodup) : (keysOf (rrfAccum m rs)).Nodup := by
  induction rs generalizing m with
  | nil => exact h
  | cons r t ih => exact ih _ (keysOf_nodup_rrfInsert _ _ _ h)

/-- Helper: the score map never repeats a key. -/
theorem rrfScores_keys_nodup (fts vec : List ScoredResult) :
    (keysOf (rrfScores fts vec)).Nodup :=
  keysOf_rrfAccum_nodup _ _ (keysOf_rrfAccum_nodup _ _ (by simp [keysOf]))

/-- Helper: with distinct keys, membership determines the looked-up
value. -/
theorem lookupScore_of_mem (m : List (String × ℚ)) (hn : (keysOf m).Nodup)
    (k : String) (v : ℚ) (h : (k, v) ∈ m) : lookupScore m k = v := by
  induction m with
  | nil => cases h
  | cons p rest ih =>
    obtain ⟨k0, v0⟩ := p
    rcases List.mem_cons.mp h with heq | hmem
    · obtain ⟨rfl, rfl⟩ := Prod.mk.injEq k v k0 v0 ▸ heq
      simp [lookupScore]
    · have hk : k0 ≠ k := by
        intro he
        subst he
        have hmem' : k0 ∈ keysOf rest := List.mem_map.mpr ⟨(k0, v), hmem, rfl⟩
        exact (List.nodup_cons.mp (by simpa [keysOf] using hn)).1 hmem'
      rw [lookupScore, if_neg hk]
      exact ih (List.nodup_cons.mp (by simpa [keysOf] using hn)).2 hmem

/-- Helper: accumulating folds the key list exactly like the
first-appearance fold. -/
theorem keysOf_rrfAccum_foldl (rs : List ScoredResult) (m : List (String × ℚ)) :
    keysOf (rrfAccum m rs) =
      rs.foldl (fun ks r => if r.id ∈ ks then ks else ks ++ [r.id]) (keysOf m) := by
  induction rs generalizing m with
  | nil => rfl
  | cons r t ih =>
    show keysOf (rrfAccum (rrfInsert m r.id (rrfWeight r.rank)) t) = _
    rw [ih, keysOf_rrfInsert]
    rfl

/-- Helper: the score map's keys are the input ids in first-appearance
order. -/
theorem keysOf_rrfScores (fts vec : List ScoredResult) :
    keysOf (rrfScores fts vec) = firstAppearIds fts vec := by
  unfold rrfScores firstAppearIds
  rw [keysOf_rrfAccum_foldl, keysOf_rrfAccum_foldl, List.foldl_append]
  rfl

/-! ## Claim C2 — reciprocal rank fusion scores and order -/

/-- C2: for any enumeration order of the score map (Go's `range` over
the map is order-free), `hybridRank` outputs entries sorted by
non-increasing fused score, each entry's score is the sum of
`1/(60+rank)` over whichever input lists contain its id, the output ids
are exactly the input ids (once each), and on the spec's example the
output is `B, A, C` with scores `1/62 + 1/61`, `1/61`, `1/62`. -/
theorem claim2_hybridRank_rrf (fts vec : List ScoredResult) (iter : List (String × ℚ))
    (hiter : iter.Perm (rrfScores fts vec)) :
    scoresSortedDesc (hybridRankEnum iter) ∧
    (∀ p ∈ hybridRankEnum iter, p.score = rrfScore fts vec p.id) ∧
    ((hybridRankEnum iter).map ScoredResult.id).Perm (firstAppearIds fts vec) ∧
    hybridRank c2Lex c2Vec =
      [⟨"B", 1/62 + 1/61, 0⟩, ⟨"A", 1/61, 0⟩, ⟨"C", 1/62, 0⟩] := by
  refine ⟨sortScoredDesc_sorted _, ?_, ?_, by
    norm_num [hybridRank, hybridRankEnum, rrfScores, rrfAccum, rrfInsert, rrfWeight,
      sortScoredDesc, insertScoredDesc, c2Lex, c2Vec]⟩
  · intro p hp
    have hp1 : p ∈ iter.map (fun q => (⟨q.1, q.2, 0⟩ : ScoredResult)) :=
      (sortScoredDesc_perm _).mem_iff.mp hp
    obtain ⟨q, hq, rfl⟩ := List.mem_map.mp hp1
    obtain ⟨k, v⟩ := q
    have hq' : (k, v) ∈ rrfScores fts vec := hiter.subset hq
    have hv := lookupScore_of_mem (rrfScores fts vec) (rrfScores_keys_nodup fts vec) k v hq'
    show v = rrfScore fts vec k
    rw [← hv, lookupScore_rrfScores]
  · have h1 : ((hybridRankEnum iter).map ScoredResult.id).Perm
        ((iter.map (fun q => (⟨q.1, q.2, 0⟩ : ScoredResult))).map ScoredResult.id) :=
      (sortScoredDesc_perm _).map _
    rw [List.map_map] at h1
    have h2 : (iter.map Prod.fst).Perm (keysOf (rrfScores fts vec)) := hiter.map Prod.fst
    have h3 := keysOf_rrfScores fts vec
    exact (h1.trans h2).trans (h3 ▸ List.Perm.refl _)

/-- C2 witness: the theorem applied to the spec's example at the
canonical (first-insertion) enumeration. -/
theorem claim2_witness :
    (rrfScores c2Lex c2Vec).Perm (rrfScores c2Lex c2Vec) ∧
    (scoresSortedDesc (hybridRankEnum (rrfScores c2Lex c2Vec)) ∧
     (∀ p ∈ hybridRankEnum (rrfScores c2Lex c2Vec), p.score = rrfScore c2Lex c2Vec p.id) ∧
     ((hybridRankEnum (rrfScores c2Lex c2Vec)).map ScoredResult.id).Perm
        (firstAppearIds c2Lex c2Vec) ∧
     hybridRank c2Lex c2Vec =
       [⟨"B", 1/62 + 1/61, 0⟩, ⟨"A", 1/61, 0⟩, ⟨"C", 1/62, 0⟩]) :=
  ⟨List.Perm.refl _, claim2_hybridRank_rrf c2Lex c2Vec _ (List.Perm.refl _)⟩

/-! ## Claim C3 — determinism and tie-breaking of the ranker

`hybridRank` enumerates a Go map with `range` (iteration order is
randomized run to run) and sorts with the unstable `sort.Slice`, so for
inputs with tied fused scores different runs on equal inputs can emit
different sequences, and tied ids do not reliably keep first-appearance
order.  The claim fails; what holds is: every run is sorted by
non-increasing fused score (claim C2's theorem), and when all fused
scores are distinct the output is the same for every enumeration
order. -/

/-- C3 counterexample: on `lex = [A:1]`, `vec = [B:1]` both ids fuse to
`1/61`.  The enumeration `[B, A]` is a permutation of the score map —
i.e. a possible `range` order of the same map — yet it yields the
output `B, A` while the first-insertion enumeration yields `A, B`: two
runs on equal inputs can differ, and the `[B, A]` run does not list
tied ids in first-appearance order. -/
theorem claim3_counterexample :
    rrfScores c3Lex c3Vec = [("A", 1/61), ("B", 1/61)] ∧
    ([("B", (1 : ℚ)/61), ("A", 1/61)]).Perm (rrfScores c3Lex c3Vec) ∧
    hybridRankEnum [("B", (1 : ℚ)/61), ("A", 1/61)] = [⟨"B", 1/61, 0⟩, ⟨"A", 1/61, 0⟩] ∧
    hybridRankEnum (rrfScores c3Lex c3Vec) = [⟨"A", (1 : ℚ)/61, 0⟩, ⟨"B", 1/61, 0⟩] ∧
    hybridRankEnum [("B", (1 : ℚ)/61), ("A", 1/61)] ≠ hybridRankEnum (rrfScores c3Lex c3Vec) ∧
    (hybridRankEnum [("B", (1 : ℚ)/61), ("A", 1/61)]).map ScoredResult.id ≠
      firstAppearIds c3Lex c3Vec := by
  have h1 : rrfScores c3Lex c3Vec = [("A", (1 : ℚ)/61), ("B", 1/61)] := by
    norm_num [rrfScores, rrfAccum, rrfInsert, rrfWeight, c3Lex, c3Vec]
    all_goals decide
  have h2 : hybridRankEnum [("B", (1 : ℚ)/61), ("A", 1/61)] =
      [⟨"B", 1/61, 0⟩, ⟨"A", 1/61, 0⟩] := by
    norm_num [hybridRankEnum, sortScoredDesc, insertScoredDesc]
  have h3 : hybridRankEnum (rrfScores c3Lex c3Vec) = [⟨"A", (1 : ℚ)/61, 0⟩, ⟨"B", 1/61, 0⟩] := by
    rw [h1]
    norm_num [hybridRankEnum, sortScoredDesc, insertScoredDesc]
  refine ⟨h1, ?_, h2, h3, ?_, ?_⟩
  · rw [h1]
    exact List.Perm.swap ("A", 1/61) ("B", 1/61) []
  · rw [h2, h3]
    decide
  · rw [h2]
    decide

/-- C3 (amended): when all fused scores are pairwise distinct, the
ranker's output sequence is identical for every enumeration order of
the score map — deterministic on such inputs; with ties, the order of
the tied ids follows the map enumeration and is not guaranteed. -/
theorem claim3_amended (fts vec : List ScoredResult) (iter1 iter2 : List (String × ℚ))
    (h1 : iter1.Perm (rrfScores fts vec)) (h2 : iter2.Perm (rrfScores fts vec))
    (hnd : ((rrfScores fts vec).map Prod.snd).Nodup) :
    hybridRankEnum iter1 = hybridRankEnum iter2 := by
  have hperm : (hybridRankEnum iter1).Perm (hybridRankEnum iter2) := by
    unfold hybridRankEnum
    exact ((sortScoredDesc_perm _).trans
      (((h1.trans h2.symm)).map (fun q => (⟨q.1, q.2, 0⟩ : ScoredResult)))).trans
      (sortScoredDesc_perm _).symm
  have hnd1 : ((hybridRankEnum iter1).map ScoredResult.score).Nodup := by
    have ha : ((hybridRankEnum iter1).map ScoredResult.score).Perm
        ((iter1.map (fun q => (⟨q.1, q.2, 0⟩ : ScoredResult))).map ScoredResult.score) :=
      (sortScoredDesc_perm _).map _
    rw [List.map_map] at ha
    have hb : (iter1.map Prod.snd).Perm ((rrfScores fts vec).map Prod.snd) :=
      h1.map Prod.snd
    exact ((ha.trans hb).nodup_iff).mpr hnd
  exact sorted_nodupScores_unique _ _ hperm (sortScoredDesc_sorted _)
    (sortScoredDesc_sorted _) hnd1

/-- C3 witness: on `lex = [A:1]`, `vec = [C:2]` the fused scores `1/61`
and `1/62` are distinct, and both enumeration orders give the same
output. -/
theorem claim3_witness :
    ([("C", (1 : ℚ)/62), ("A", 1/61)]).Perm (rrfScores c3Lex c3dVec) ∧
    ((rrfScores c3Lex c3dVec).map Prod.snd).Nodup ∧
    hybridRankEnum [("C", (1 : ℚ)/62), ("A", 1/61)] =
      hybridRankEnum (rrfScores c3Lex c3dVec) := by
  have h1 : rrfScores c3Lex c3dVec = [("A", (1 : ℚ)/61), ("C", 1/62)] := by
    norm_num [rrfScores, rrfAccum, rrfInsert, rrfWeight, c3Lex, c3dVec]
    all_goals decide
  have hperm : ([("C", (1 : ℚ)/62), ("A", 1/61)]).Perm (rrfScores c3Lex c3dVec) := by
    rw [h1]
    exact List.Perm.swap ("A", 1/61) ("C", 1/62) []
  have hnd : ((rrfScores c3Lex c3dVec).map Prod.snd).Nodup := by
    rw [h1]
    norm_num
  exact ⟨hperm, hnd,
    claim3_amended c3Lex c3dVec _ _ hperm (List.Perm.refl _) hnd⟩

end XHub
